import Mathlib

/-!
Shallow embedding of the reconciliation core of immich-stray-finder:
the directory-aware matcher (matcher/matcher.go, MatchContext version)
and the per-page merge loop of the catalog fetcher (immich/client.go,
fetchAssetsPage).

Modelling conventions:
* a Go string is a list of characters (`Str`);
* a Go `map[string]struct{}` used as a set is a `Finset Str`;
* the Go regexp `uuidRegex` is embedded as an executable predicate
  checking length 36, hyphens at positions 8, 13, 18, 23 and hex
  digits everywhere else — exactly the anchored 8-4-4-4-12 pattern.
-/

namespace StrayFinder

/-- Go strings, modelled as lists of characters. -/
abbrev Str := List Char

/-- Embed a Lean string literal into the `Str` model. -/
def str (s : String) : Str := s.toList

/-- `strings.SplitN(relPath, "/", 2)[0]`: the top-level segment of a
relative path — the whole string when it has no slash, and the empty
string for the empty path. -/
def topDir (relPath : Str) : Str :=
  relPath.takeWhile (fun c => c != '/')

/-- Go `path.Base`: strip trailing slashes, then keep everything after
the last remaining slash; the empty path gives ".", an all-slash path
gives "/". -/
def pathBase (p : Str) : Str :=
  if p = [] then ['.']
  else
    let q := (p.reverse.dropWhile (fun c => c == '/')).reverse
    if q = [] then ['/']
    else (q.reverse.takeWhile (fun c => c != '/')).reverse

/-- The second element of `strings.SplitN(relPath, "/", 3)` when the
split has at least two parts (the path contains a slash), `none`
otherwise. -/
def splitSecond (p : Str) : Option Str :=
  match p.dropWhile (fun c => c != '/') with
  | [] => none
  | _ :: rest => some (rest.takeWhile (fun c => c != '/'))

/-- One character class `[0-9a-fA-F]` of `uuidRegex`. -/
def isHexDigit (c : Char) : Bool :=
  ('0' ≤ c && c ≤ '9') || ('a' ≤ c && c ≤ 'f') || ('A' ≤ c && c ≤ 'F')

/-- `uuidRegex.MatchString`: the anchored pattern of five hyphen-separated
hexadecimal groups of lengths 8-4-4-4-12, so 36 characters in total with
hyphens exactly at indices 8, 13, 18, 23. -/
def isValidUUID (s : Str) : Bool :=
  s.length == 36 &&
    s.enum.all (fun p =>
      if p.1 == 8 || p.1 == 13 || p.1 == 18 || p.1 == 23 then p.2 == '-'
      else isHexDigit p.2)

/-- `extractUUID`: a UUID is recognised only as the first 36 characters of
the string; shorter strings and invalid 36-character candidates give the
empty string. -/
def extractUUID (s : Str) : Str :=
  if s.length < 36 then []
  else
    let candidate := s.take 36
    if isValidUUID candidate then candidate else []

/-- `MatchContext` of matcher.go: the three identity sets built from the
catalog. -/
structure MatchContext where
  AssetPaths : Finset Str
  AssetIDs : Finset Str
  UserIDs : Finset Str

/-- `matchByAssetID`: extract a UUID from the base filename and test it
against the known asset IDs. -/
def matchByAssetID (relPath : Str) (assetIDs : Finset Str) : Bool :=
  let uuid := extractUUID (pathBase relPath)
  if uuid = [] then false
  else decide (uuid ∈ assetIDs)

/-- `matchByUserID`: the second path segment must be present, a valid
UUID, and a member of the known user IDs. -/
def matchByUserID (relPath : Str) (userIDs : Finset Str) : Bool :=
  match splitSecond relPath with
  | none => false
  | some userID =>
    if isValidUUID userID then decide (userID ∈ userIDs) else false

/-- `isKnown`: dispatch on the top-level directory — exact path match for
library/upload, asset-UUID match for thumbs/encoded-video, user-UUID
match for profile, always known for a top-level ".immich", untracked
otherwise. -/
def isKnown (relPath : Str) (mctx : MatchContext) : Bool :=
  let top := topDir relPath
  if top = str "library" ∨ top = str "upload" then
    decide (relPath ∈ mctx.AssetPaths)
  else if top = str "thumbs" ∨ top = str "encoded-video" then
    matchByAssetID relPath mctx.AssetIDs
  else if top = str "profile" then
    matchByUserID relPath mctx.UserIDs
  else if top = str ".immich" then
    true
  else
    false

/-- An untracked file, as returned by `FindUntracked`. -/
structure UntrackedFile where
  RelPath : Str
deriving DecidableEq

/-- `FindUntracked`: keep, in input order, every entry that `isKnown`
rejects. -/
def FindUntracked (diskFiles : List Str) (mctx : MatchContext) : List UntrackedFile :=
  match diskFiles with
  | [] => []
  | p :: rest =>
    if isKnown p mctx then FindUntracked rest mctx
    else { RelPath := p } :: FindUntracked rest mctx

/-- An asset record as returned by the paginated search endpoint
(immich/types.go), restricted to the fields the merge loop reads. -/
structure Asset where
  id : Str
  ownerId : Str
  originalPath : Str

/-- The three accumulated sets of `AllAssetsResult` (immich/types.go). -/
structure AllAssetsResult where
  AssetPaths : Finset Str
  AssetIDs : Finset Str
  UserIDs : Finset Str
deriving DecidableEq

/-- One conditional insertion of the merge loop: a non-empty value is
added to the set, an empty value is skipped. -/
def addIfNonEmpty (v : Str) (s : Finset Str) : Finset Str :=
  if v ≠ [] then insert v s else s

/-- The body of the merge loop of `fetchAssetsPage` for one asset: each
of the three fields is conditionally inserted into its own set. -/
def mergeAsset (result : AllAssetsResult) (asset : Asset) : AllAssetsResult :=
  { AssetPaths := addIfNonEmpty asset.originalPath result.AssetPaths
    AssetIDs := addIfNonEmpty asset.id result.AssetIDs
    UserIDs := addIfNonEmpty asset.ownerId result.UserIDs }

/-- The merge loop of `fetchAssetsPage` over one page of assets. -/
def mergeBatch (result : AllAssetsResult) (batch : List Asset) : AllAssetsResult :=
  batch.foldl mergeAsset result

/-- The non-empty values a batch contributes to one of the sets, read
off one field. -/
def nonEmptyVals (f : Asset → Str) (batch : List Asset) : List Str :=
  (batch.map f).filter (fun v => v ≠ [])

/-! ### Lemmas about the catalog aggregator -/

theorem mergeBatch_cons (r : AllAssetsResult) (a : Asset) (l : List Asset) :
    mergeBatch r (a :: l) = mergeBatch (mergeAsset r a) l := rfl

theorem nonEmptyVals_cons (f : Asset → Str) (a : Asset) (l : List Asset) :
    nonEmptyVals f (a :: l) =
      if f a ≠ [] then f a :: nonEmptyVals f l else nonEmptyVals f l := by
  simp only [nonEmptyVals, List.map_cons, List.filter_cons]
  split <;> simp_all

theorem addIfNonEmpty_union (v : Str) (s : Finset Str) (l : List Str) :
    addIfNonEmpty v s ∪ l.toFinset =
      s ∪ (if v ≠ [] then v :: l else l).toFinset := by
  by_cases h : v = [] <;>
    simp [addIfNonEmpty, h, Finset.insert_union, Finset.union_insert]

/-- Closed form of the merge loop: each set of the result is the original
set joined with the batch's non-empty values of the corresponding field. -/
theorem mergeBatch_eq (r : AllAssetsResult) (batch : List Asset) :
    mergeBatch r batch =
      { AssetPaths := r.AssetPaths ∪ (nonEmptyVals Asset.originalPath batch).toFinset
        AssetIDs := r.AssetIDs ∪ (nonEmptyVals Asset.id batch).toFinset
        UserIDs := r.UserIDs ∪ (nonEmptyVals Asset.ownerId batch).toFinset } := by
  induction batch generalizing r with
  | nil =>
    cases r
    simp [mergeBatch, nonEmptyVals]
  | cons a l ih =>
    rw [mergeBatch_cons, ih]
    simp only [mergeAsset, AllAssetsResult.mk.injEq, nonEmptyVals_cons]
    refine ⟨?_, ?_, ?_⟩ <;> rw [addIfNonEmpty_union]

theorem mergeAsset_eq_self (r : AllAssetsResult) (a : Asset)
    (h1 : a.originalPath ≠ [] → a.originalPath ∈ r.AssetPaths)
    (h2 : a.id ≠ [] → a.id ∈ r.AssetIDs)
    (h3 : a.ownerId ≠ [] → a.ownerId ∈ r.UserIDs) :
    mergeAsset r a = r := by
  have e1 : addIfNonEmpty a.originalPath r.AssetPaths = r.AssetPaths := by
    unfold addIfNonEmpty; split
    · exact Finset.insert_eq_self.mpr (h1 ‹_›)
    · rfl
  have e2 : addIfNonEmpty a.id r.AssetIDs = r.AssetIDs := by
    unfold addIfNonEmpty; split
    · exact Finset.insert_eq_self.mpr (h2 ‹_›)
    · rfl
  have e3 : addIfNonEmpty a.ownerId r.UserIDs = r.UserIDs := by
    unfold addIfNonEmpty; split
    · exact Finset.insert_eq_self.mpr (h3 ‹_›)
    · rfl
  cases r
  simp only [mergeAsset]
  rw [e1, e2, e3]

theorem mem_nonEmptyVals (f : Asset → Str) (batch : List Asset) (a : Asset)
    (ha : a ∈ batch) (hne : f a ≠ []) : f a ∈ nonEmptyVals f batch := by
  simp only [nonEmptyVals, List.mem_filter, List.mem_map]
  exact ⟨⟨a, ha, rfl⟩, by simpa using hne⟩

theorem mergeAsset_absorbed (r : AllAssetsResult) (b : List Asset) (a : Asset)
    (ha : a ∈ b) : mergeAsset (mergeBatch r b) a = mergeBatch r b := by
  apply mergeAsset_eq_self <;> intro hne <;> rw [mergeBatch_eq] <;>
    simp only [Finset.mem_union, List.mem_toFinset]
  · exact Or.inr (mem_nonEmptyVals _ _ _ ha hne)
  · exact Or.inr (mem_nonEmptyVals _ _ _ ha hne)
  · exact Or.inr (mem_nonEmptyVals _ _ _ ha hne)

theorem mergeBatch_eq_self (r : AllAssetsResult) (b : List Asset)
    (h : ∀ a ∈ b, mergeAsset r a = r) : mergeBatch r b = r := by
  induction b with
  | nil => rfl
  | cons a l ih =>
    rw [mergeBatch_cons, h a (List.mem_cons_self a l)]
    exact ih fun x hx => h x (List.mem_cons_of_mem a hx)

/-! ### Lemmas about the matcher -/

theorem topDir_no_slash (p : Str) (h : ∀ c ∈ p, c ≠ '/') : topDir p = p := by
  induction p with
  | nil => rfl
  | cons c cs ih =>
    have hc : (c != '/') = true := by
      simpa using h c (List.mem_cons_self c cs)
    unfold topDir
    rw [List.takeWhile_cons, if_pos hc]
    have := ih fun x hx => h x (List.mem_cons_of_mem c hx)
    unfold topDir at this
    rw [this]

theorem matchByUserID_iff (p : Str) (uids : Finset Str) :
    matchByUserID p uids = true ↔
      ∃ u, splitSecond p = some u ∧ isValidUUID u = true ∧ u ∈ uids := by
  unfold matchByUserID
  cases hs : splitSecond p with
  | none => simp
  | some u =>
    by_cases hv : isValidUUID u = true
    · simp [hv]
    · simp [hv, Bool.not_eq_true _ ▸ hv]

theorem matchByAssetID_iff (p : Str) (ids : Finset Str) :
    matchByAssetID p ids = true ↔
      extractUUID (pathBase p) ≠ [] ∧ extractUUID (pathBase p) ∈ ids := by
  unfold matchByAssetID
  by_cases h : extractUUID (pathBase p) = []
  · simp [h]
  · simp [h]

theorem findUntracked_map (mctx : MatchContext) (ds : List Str) :
    (FindUntracked ds mctx).map UntrackedFile.RelPath =
      ds.filter (fun p => !isKnown p mctx) := by
  induction ds with
  | nil => rfl
  | cons p rest ih =>
    cases h : isKnown p mctx <;>
      simp [FindUntracked, h, List.filter_cons, ih]

theorem length_of_isValidUUID (s : Str) (h : isValidUUID s = true) :
    s.length = 36 := by
  unfold isValidUUID at h
  simp only [Bool.and_eq_true, Nat.beq_eq_true_eq] at h
  exact h.1

/-- The lower-casing of the six upper-case hexadecimal letters; every
other character is left alone. -/
def hexLower (c : Char) : Char :=
  if c = 'A' then 'a' else if c = 'B' then 'b' else if c = 'C' then 'c'
  else if c = 'D' then 'd' else if c = 'E' then 'e' else if c = 'F' then 'f'
  else c

theorem isHexDigit_hexLower (c : Char) : isHexDigit (hexLower c) = isHexDigit c := by
  unfold hexLower
  split_ifs with h1 h2 h3 h4 h5 h6 <;> subst_vars <;> rfl

theorem hexLower_dash (c : Char) : (hexLower c == '-') = (c == '-') := by
  unfold hexLower
  split_ifs with h1 h2 h3 h4 h5 h6 <;> subst_vars <;> rfl

theorem all_congr_on {α : Type} (l : List α) (p q : α → Bool)
    (h : ∀ x ∈ l, p x = q x) : l.all p = l.all q := by
  induction l with
  | nil => rfl
  | cons a t ih =>
    simp only [List.all_cons, h a (List.mem_cons_self a t)]
    rw [ih fun x hx => h x (List.mem_cons_of_mem a hx)]

theorem isValidUUID_hexLower (s : Str) :
    isValidUUID (s.map hexLower) = isValidUUID s := by
  unfold isValidUUID
  rw [List.length_map, List.enum_map, List.all_map]
  congr 1
  apply all_congr_on
  intro x _
  simp only [Function.comp_apply, Prod.map_fst, Prod.map_snd, id]
  cases x with
  | mk i c =>
    by_cases hi : i == 8 || i == 13 || i == 18 || i == 23
    · simp [hi, hexLower_dash]
    · simp [hi, isHexDigit_hexLower]

/-! ### Claim theorems -/

/-- C1: evaluation of the matcher at the failing inputs. A file whose base
filename is ".immich" nested below a scanned top-level directory is NOT
treated as known: `isKnown` dispatches on the top-level segment only, so
"library/sub/.immich" and "thumbs/.immich" are reported untracked under the
empty snapshot, although their base filename is the reserved marker name. -/
theorem marker_nested_flagged_untracked :
    pathBase (str "library/sub/.immich") = str ".immich" ∧
    pathBase (str "thumbs/.immich") = str ".immich" ∧
    isKnown (str "library/sub/.immich") ⟨∅, ∅, ∅⟩ = false ∧
    isKnown (str "thumbs/.immich") ⟨∅, ∅, ∅⟩ = false ∧
    FindUntracked [str "library/sub/.immich", str "thumbs/.immich"] ⟨∅, ∅, ∅⟩ =
      [⟨str "library/sub/.immich"⟩, ⟨str "thumbs/.immich"⟩] := by decide

/-- C2 counterexample: with the lower-case identifier stored in the snapshot
and an upper-case spelling of the same identifier in the filename (or the
per-owner path segment), the verdict is untracked, not known — identifier
membership is an exact string comparison. -/
theorem case_variant_identifier_untracked :
    isValidUUID (str "AAAAAAAA-AAAA-AAAA-AAAA-AAAAAAAAAAAA") = true ∧
    extractUUID (str "AAAAAAAA-AAAA-AAAA-AAAA-AAAAAAAAAAAA.webp")
      = str "AAAAAAAA-AAAA-AAAA-AAAA-AAAAAAAAAAAA" ∧
    isKnown (str "thumbs/AAAAAAAA-AAAA-AAAA-AAAA-AAAAAAAAAAAA.webp")
      ⟨∅, {str "aaaaaaaa-aaaa-aaaa-aaaa-aaaaaaaaaaaa"}, ∅⟩ = false ∧
    isKnown (str "profile/AAAAAAAA-AAAA-AAAA-AAAA-AAAAAAAAAAAA/pic.jpg")
      ⟨∅, ∅, {str "aaaaaaaa-aaaa-aaaa-aaaa-aaaaaaaaaaaa"}⟩ = false := by decide

/-- C2 (amended): identifier format validation is case-insensitive
(lower-casing the hexadecimal letters never changes its outcome), but the
membership tests of an extracted identifier against contentIDs and ownerIDs
compare exact strings, case-sensitively; path comparison is the exact
membership of the whole path in the paths set. -/
theorem identifier_validation_vs_membership (ids uids paths : Finset Str) (p : Str) :
    (∀ s : Str, isValidUUID (s.map hexLower) = isValidUUID s) ∧
    (matchByAssetID p ids = true ↔
      extractUUID (pathBase p) ≠ [] ∧ extractUUID (pathBase p) ∈ ids) ∧
    (matchByUserID p uids = true ↔
      ∃ u, splitSecond p = some u ∧ isValidUUID u = true ∧ u ∈ uids) ∧
    ((topDir p = str "library" ∨ topDir p = str "upload") →
      (isKnown p ⟨paths, ids, uids⟩ = true ↔ p ∈ paths)) := by
  refine ⟨isValidUUID_hexLower, matchByAssetID_iff p ids, matchByUserID_iff p uids, ?_⟩
  intro hc
  simp only [isKnown]
  rw [if_pos hc]
  simp [decide_eq_true_eq]

/-- C3 counterexample: a single segment with no slash is not always reported
untracked — ".immich" alone is known under every snapshot, and "library"
alone is known whenever the string "library" is itself in the paths set. -/
theorem single_segment_not_always_untracked :
    isKnown (str ".immich") ⟨∅, ∅, ∅⟩ = true ∧
    FindUntracked [str ".immich"] ⟨∅, ∅, ∅⟩ = [] ∧
    isKnown (str "library") ⟨{str "library"}, ∅, ∅⟩ = true ∧
    FindUntracked [str "library"] ⟨{str "library"}, ∅, ∅⟩ = [] := by decide

/-- C3 (amended): the engine never errors on malformed input, and the empty
string as well as every slash-free single segment other than the designated
names "library", "upload" and ".immich" is treated as an unrecognized
top-level segment and reported untracked (a single segment equal to a
designated directory name is instead dispatched to that directory's
strategy). -/
theorem malformed_path_untracked (mctx : MatchContext) (p : Str)
    (hns : ∀ c ∈ p, c ≠ '/')
    (h1 : p ≠ str "library") (h2 : p ≠ str "upload") (h3 : p ≠ str ".immich") :
    isKnown p mctx = false ∧ FindUntracked [p] mctx = [⟨p⟩] := by
  have ht : topDir p = p := topDir_no_slash p hns
  have hk : isKnown p mctx = false := by
    by_cases hth : p = str "thumbs"
    · subst hth; rfl
    · by_cases hev : p = str "encoded-video"
      · subst hev; rfl
      · by_cases hpr : p = str "profile"
        · subst hpr; rfl
        · simp only [isKnown, ht]
          rw [if_neg (not_or.mpr ⟨h1, h2⟩), if_neg (not_or.mpr ⟨hth, hev⟩),
              if_neg hpr, if_neg h3]
  exact ⟨hk, by simp [FindUntracked, hk]⟩

theorem malformed_path_untracked_witness :
    isKnown (str "stray.dat") ⟨∅, ∅, ∅⟩ = false ∧
    FindUntracked [str "stray.dat"] ⟨∅, ∅, ∅⟩ = [⟨str "stray.dat"⟩] :=
  malformed_path_untracked ⟨∅, ∅, ∅⟩ (str "stray.dat")
    (by decide) (by decide) (by decide) (by decide)

/-- C4: identifier extraction looks only at the first 36 characters — a
shorter string yields none (the empty string), and otherwise the 36-character
candidate is returned iff it passes the validation, with nothing beyond the
candidate ever examined: the result is always empty or exactly the
36-character candidate. -/
theorem extractLeadingIdentifier_spec (s : Str) :
    (s.length < 36 → extractUUID s = []) ∧
    (36 ≤ s.length →
      ((isValidUUID (s.take 36) = true → extractUUID s = s.take 36) ∧
       (isValidUUID (s.take 36) = false → extractUUID s = []))) ∧
    (extractUUID s = [] ∨ extractUUID s = s.take 36) := by
  refine ⟨?_, ?_, ?_⟩
  · intro h; simp [extractUUID, h]
  · intro h
    have hn : ¬ s.length < 36 := by omega
    exact ⟨fun hv => by simp [extractUUID, hn, hv],
           fun hv => by simp [extractUUID, hn, hv]⟩
  · by_cases h : s.length < 36
    · exact Or.inl (by simp [extractUUID, h])
    · by_cases hv : isValidUUID (s.take 36) = true
      · exact Or.inr (by simp [extractUUID, h, hv])
      · exact Or.inl (by simp [extractUUID, h, hv])

/-- C5: merging a batch adds exactly the non-empty path, identifier and
owner fields to the paths, contentIDs and ownerIDs sets respectively —
empty fields are skipped silently and no field reaches another set; in
particular a record with an empty path still contributes its identifier
and owner. -/
theorem merge_adds_each_nonempty_field (r : AllAssetsResult) (batch : List Asset) :
    ((mergeBatch r batch).AssetPaths
        = r.AssetPaths ∪ (nonEmptyVals Asset.originalPath batch).toFinset ∧
     (mergeBatch r batch).AssetIDs
        = r.AssetIDs ∪ (nonEmptyVals Asset.id batch).toFinset ∧
     (mergeBatch r batch).UserIDs
        = r.UserIDs ∪ (nonEmptyVals Asset.ownerId batch).toFinset) ∧
    mergeBatch ⟨∅, ∅, ∅⟩
        [{ id := str "aaaaaaaa-aaaa-aaaa-aaaa-aaaaaaaaaaaa",
           ownerId := str "bbbbbbbb-bbbb-bbbb-bbbb-bbbbbbbbbbbb",
           originalPath := [] }]
      = ⟨∅, {str "aaaaaaaa-aaaa-aaaa-aaaa-aaaaaaaaaaaa"},
         {str "bbbbbbbb-bbbb-bbbb-bbbb-bbbbbbbbbbbb"}⟩ := by
  refine ⟨?_, by decide⟩
  rw [mergeBatch_eq]
  exact ⟨rfl, rfl, rfl⟩

/-- C6: merging is batch-partition independent and idempotent — merging b1
then b2 equals merging their concatenation in one call, re-merging a record
already contained in a merged batch changes nothing, and merging a batch
twice equals merging it once. -/
theorem merge_batch_partition_independent :
    (∀ (r : AllAssetsResult) (b1 b2 : List Asset),
      mergeBatch (mergeBatch r b1) b2 = mergeBatch r (b1 ++ b2)) ∧
    (∀ (r : AllAssetsResult) (b : List Asset) (a : Asset), a ∈ b →
      mergeAsset (mergeBatch r b) a = mergeBatch r b) ∧
    (∀ (r : AllAssetsResult) (b : List Asset),
      mergeBatch r (b ++ b) = mergeBatch r b) := by
  have h1 : ∀ (r : AllAssetsResult) (b1 b2 : List Asset),
      mergeBatch (mergeBatch r b1) b2 = mergeBatch r (b1 ++ b2) := by
    intro r b1 b2
    unfold mergeBatch
    rw [List.foldl_append]
  refine ⟨h1, mergeAsset_absorbed, ?_⟩
  intro r b
  rw [← h1]
  exact mergeBatch_eq_self _ _ fun a ha => mergeAsset_absorbed r b a ha

/-- C7: a path whose top-level segment is none of the designated directories
and not the marker name is always untracked, for every snapshot. -/
theorem unknown_top_segment_untracked (mctx : MatchContext) (p : Str)
    (h : topDir p ∉ [str "library", str "upload", str "thumbs",
                     str "encoded-video", str "profile", str ".immich"]) :
    isKnown p mctx = false ∧ FindUntracked [p] mctx = [⟨p⟩] := by
  simp only [List.mem_cons, List.not_mem_nil, or_false, not_or] at h
  obtain ⟨h1, h2, h3, h4, h5, h6⟩ := h
  have hk : isKnown p mctx = false := by
    simp only [isKnown]
    rw [if_neg (not_or.mpr ⟨h1, h2⟩), if_neg (not_or.mpr ⟨h3, h4⟩),
        if_neg h5, if_neg h6]
  exact ⟨hk, by simp [FindUntracked, hk]⟩

theorem unknown_top_segment_untracked_witness :
    isKnown (str "foo/bar.dat")
      ⟨{str "foo/bar.dat"}, {str "aaaaaaaa-aaaa-aaaa-aaaa-aaaaaaaaaaaa"}, ∅⟩ = false ∧
    FindUntracked [str "foo/bar.dat"]
      ⟨{str "foo/bar.dat"}, {str "aaaaaaaa-aaaa-aaaa-aaaa-aaaaaaaaaaaa"}, ∅⟩
      = [⟨str "foo/bar.dat"⟩] :=
  unknown_top_segment_untracked
    ⟨{str "foo/bar.dat"}, {str "aaaaaaaa-aaaa-aaaa-aaaa-aaaaaaaaaaaa"}, ∅⟩
    (str "foo/bar.dat") (by decide)

/-- C8: under the per-owner directory the verdict is known exactly when the
path has a second segment that is a valid identifier and a member of the
ownerIDs set. -/
theorem profile_owner_verdict (mctx : MatchContext) (p : Str)
    (h : topDir p = str "profile") :
    isKnown p mctx = true ↔
      ∃ u, splitSecond p = some u ∧ isValidUUID u = true ∧ u ∈ mctx.UserIDs := by
  have hk : isKnown p mctx = matchByUserID p mctx.UserIDs := by
    simp only [isKnown, h]
    rw [if_neg (by decide), if_neg (by decide)]
    simp
  rw [hk, matchByUserID_iff]

theorem profile_owner_verdict_witness :
    isKnown (str "profile/aaaaaaaa-aaaa-aaaa-aaaa-aaaaaaaaaaaa/pic.jpg")
      ⟨∅, ∅, {str "aaaaaaaa-aaaa-aaaa-aaaa-aaaaaaaaaaaa"}⟩ = true :=
  (profile_owner_verdict ⟨∅, ∅, {str "aaaaaaaa-aaaa-aaaa-aaaa-aaaaaaaaaaaa"}⟩
      (str "profile/aaaaaaaa-aaaa-aaaa-aaaa-aaaaaaaaaaaa/pic.jpg") (by decide)).mpr
    ⟨str "aaaaaaaa-aaaa-aaaa-aaaa-aaaaaaaaaaaa", by decide, by decide, by decide⟩

/-- C9: the untracked output is the input filtered by the verdict, so it
follows the input order (it is a sublist of the input) and duplicated
untracked inputs are reported as often as they occur. -/
theorem findUntracked_order_and_duplicates (mctx : MatchContext) (ds : List Str) :
    ((FindUntracked ds mctx).map UntrackedFile.RelPath).Sublist ds ∧
    ((FindUntracked ds mctx).map UntrackedFile.RelPath)
        = ds.filter (fun p => !isKnown p mctx) ∧
    (∀ p : Str, isKnown p mctx = false →
      ((FindUntracked ds mctx).map UntrackedFile.RelPath).count p = ds.count p) := by
  refine ⟨?_, findUntracked_map mctx ds, ?_⟩
  · rw [findUntracked_map]
    exact List.filter_sublist ds
  · intro p hp
    rw [findUntracked_map]
    exact List.count_filter (by simp [hp])

/-- C10: extraction returns the empty string or exactly the first 36
characters of its input, every non-empty result passes the validation, and
on a valid identifier extraction is the identity — so extraction composed
with itself returns the identifier unchanged. -/
theorem extractUUID_prefix_invariants (s : Str) :
    (extractUUID s = [] ∨ extractUUID s = s.take 36) ∧
    (extractUUID s ≠ [] → isValidUUID (extractUUID s) = true) ∧
    (isValidUUID s = true →
      extractUUID s = s ∧ extractUUID (extractUUID s) = s) := by
  by_cases h : s.length < 36
  · have he : extractUUID s = [] := by simp [extractUUID, h]
    refine ⟨Or.inl he, fun hne => absurd he hne, fun hv => ?_⟩
    exact absurd (length_of_isValidUUID s hv) (by omega)
  · by_cases hv : isValidUUID (s.take 36) = true
    · have he : extractUUID s = s.take 36 := by simp [extractUUID, h, hv]
      refine ⟨Or.inr he, fun _ => he ▸ hv, fun hvs => ?_⟩
      have hl : s.length = 36 := length_of_isValidUUID s hvs
      have hts : s.take 36 = s := by
        rw [← hl]
        exact List.take_length s
      refine ⟨by rw [he, hts], ?_⟩
      rw [he, hts, he, hts]
    · have he : extractUUID s = [] := by simp [extractUUID, h, hv]
      refine ⟨Or.inl he, fun hne => absurd he hne, fun hvs => ?_⟩
      have hl : s.length = 36 := length_of_isValidUUID s hvs
      have hts : s.take 36 = s := by
        rw [← hl]
        exact List.take_length s
      rw [hts] at hv
      exact absurd hvs hv

end StrayFinder
